import Mathlib

/-
  Verification of the waveform edit buffer with bounded undo history
  (`src/core/editor.ts`, class `WAAudioEditor`).

  Shallow embedding conventions:
  * An `AudioBuffer` is a channel count, a per-channel sample count, a
    sample rate, and a total sample function `channelData ch i`; only the
    values with `ch < numberOfChannels` and `i < length` are observable
    (`buffersEqual` compares exactly those).  Host buffer allocation
    (`context.createBuffer` plus the per-channel write loops) is embedded
    as `mkBuffer`, which is zero outside the written region, matching the
    zero-initialised Float32Array channels.
  * JS numbers (seconds, sample values) are embedded as rationals; the
    host transcendental helpers `Math.pow(10, ·)` and `Math.exp` are not
    exactly representable and are passed in as parameters `mpow10`/`mexp`,
    so every theorem quantifies over them.
  * `Array.prototype.push`/`pop` act at one end and `shift` evicts at the
    other; the undo/redo stacks are embedded most-recent-first, so `push`
    is `cons`, `pop` takes the head, and `shift` is `dropLast`.
  * Defensive cloning of an immutable value (`_cloneBuffer`) is the
    identity in a value semantics.
-/

namespace WAAudio

/-- Shallow embedding of a Web Audio `AudioBuffer`: channel count, frame
count per channel, sample rate, and the per-channel sample data. -/
structure AudioBuffer where
  numberOfChannels : ℕ
  length : ℕ
  sampleRate : ℚ
  channelData : ℕ → ℕ → ℚ

/-- `buffer.duration = length / sampleRate` (seconds). -/
def duration (b : AudioBuffer) : ℚ := (b.length : ℚ) / b.sampleRate

/-- `Math.floor(t * sampleRate)` converting a time in seconds to a sample
index; all call sites guard `t` to be nonnegative. -/
def toSampleIndex (t sr : ℚ) : ℕ := (⌊t * sr⌋).toNat

/-- `context.createBuffer(n, len, sr)` followed by writing `f ch i` at
channel `ch`, index `i`: samples outside the allocated region are 0
(Float32Array channels are zero-initialised). -/
def mkBuffer (n len : ℕ) (sr : ℚ) (f : ℕ → ℕ → ℚ) : AudioBuffer :=
  ⟨n, len, sr, fun ch i => if ch < n ∧ i < len then f ch i else 0⟩

/-- Sample-for-sample equality of two buffers: same channel count, same
length, and equal samples at every observable position. -/
def buffersEqual (a b : AudioBuffer) : Prop :=
  a.numberOfChannels = b.numberOfChannels ∧ a.length = b.length ∧
    ∀ ch < a.numberOfChannels, ∀ i < a.length, a.channelData ch i = b.channelData ch i

instance (a b : AudioBuffer) : Decidable (buffersEqual a b) := by
  unfold buffersEqual; infer_instance

/-- `WAAudioEditor._cloneBuffer`: a defensive copy of an immutable value
is the value itself in the embedding. -/
def cloneBuffer (b : AudioBuffer) : AudioBuffer := b

/-- `WAAudioEditor._maxUndoSteps = 20`. -/
def maxUndoSteps : ℕ := 20

/-- Editor state: the current buffer plus the undo and redo stacks
(most-recent-first in the embedding). -/
structure EditorState where
  buffer : AudioBuffer
  undoStack : List AudioBuffer
  redoStack : List AudioBuffer

/-- Stack update of `_saveState`: push a clone of the current buffer and,
past `_maxUndoSteps` entries, evict the oldest (bottom) snapshot. -/
def pushBounded (b : AudioBuffer) (stack : List AudioBuffer) : List AudioBuffer :=
  let s := cloneBuffer b :: stack
  if s.length > maxUndoSteps then s.dropLast else s

/-- `WAAudioEditor._saveState`: push the pre-operation buffer onto the
undo stack (bounded) and clear the redo stack. -/
def saveState (st : EditorState) : EditorState :=
  { st with undoStack := pushBounded st.buffer st.undoStack, redoStack := [] }

/-- `WAAudioEditor.undo`. -/
def undo (st : EditorState) : Bool × EditorState :=
  match st.undoStack with
  | [] => (false, st)
  | top :: rest => (true, ⟨top, rest, cloneBuffer st.buffer :: st.redoStack⟩)

/-- `WAAudioEditor.redo`. -/
def redo (st : EditorState) : Bool × EditorState :=
  match st.redoStack with
  | [] => (false, st)
  | top :: rest => (true, ⟨top, cloneBuffer st.buffer :: st.undoStack, rest⟩)

/-- `WAAudioEditor.clearHistory`. -/
def clearHistory (st : EditorState) : EditorState :=
  { st with undoStack := [], redoStack := [] }

/-- `WAAudioEditor._createBufferWithGap`: keep `[0, removeStart)`, then
append the data from `removeEnd` on. -/
def gapBuffer (b : AudioBuffer) (removeStart removeEnd : ℕ) : AudioBuffer :=
  mkBuffer b.numberOfChannels (b.length - (removeEnd - removeStart)) b.sampleRate
    (fun ch i =>
      if i < removeStart then b.channelData ch i
      else b.channelData ch (removeEnd + (i - removeStart)))

/-- `WAAudioEditor.cut`: on an invalid range return `null` and leave the
state alone; otherwise save state, extract the range into a fresh buffer,
and close the gap. -/
def cut (start stop : ℚ) (st : EditorState) : Option AudioBuffer × EditorState :=
  if start ≥ stop ∨ start < 0 ∨ stop > duration st.buffer then (none, st)
  else
    let st1 := saveState st
    let b := st.buffer
    let startSample := toSampleIndex start b.sampleRate
    let endSample := toSampleIndex stop b.sampleRate
    let cutLength := endSample - startSample
    let cutBuffer := mkBuffer b.numberOfChannels cutLength b.sampleRate
      (fun ch i => b.channelData ch (startSample + i))
    (some cutBuffer, { st1 with buffer := gapBuffer b startSample endSample })

/-- `WAAudioEditor.delete`: gap-closing removal, discarding the segment. -/
def delete (start stop : ℚ) (st : EditorState) : EditorState :=
  if start ≥ stop ∨ start < 0 ∨ stop > duration st.buffer then st
  else
    let st1 := saveState st
    let b := st.buffer
    { st1 with
      buffer := gapBuffer b (toSampleIndex start b.sampleRate) (toSampleIndex stop b.sampleRate) }

/-- `WAAudioEditor.copy`: pure extraction of the range; no state change. -/
def copy (start stop : ℚ) (st : EditorState) : Option AudioBuffer :=
  if start ≥ stop ∨ start < 0 ∨ stop > duration st.buffer then none
  else
    let b := st.buffer
    let startSample := toSampleIndex start b.sampleRate
    let endSample := toSampleIndex stop b.sampleRate
    some (mkBuffer b.numberOfChannels (endSample - startSample) b.sampleRate
      (fun ch i => b.channelData ch (startSample + i)))

/-- `WAAudioEditor.paste`: allocate `max(length, positionSample + pb.length)`
frames, copy the old data in full, then for each source channel
`ch < pb.numberOfChannels` overwrite `[positionSample, positionSample + pb.length)`
of destination channel `ch` with source channel `min ch (n - 1)` (the
source's index clamp uses the destination channel count `n`; a write to a
destination channel `ch ≥ n` has no allocated array and is dropped). -/
def paste (position : ℚ) (pb : AudioBuffer) (st : EditorState) : EditorState :=
  if position < 0 ∨ position > duration st.buffer then st
  else
    let st1 := saveState st
    let b := st.buffer
    let n := b.numberOfChannels
    let positionSample := toSampleIndex position b.sampleRate
    let newLength := positionSample + pb.length
    { st1 with
      buffer := mkBuffer n (max b.length newLength) b.sampleRate
        (fun ch i =>
          if ch < pb.numberOfChannels ∧ positionSample ≤ i ∧ i < positionSample + pb.length then
            pb.channelData (min ch (n - 1)) (i - positionSample)
          else if i < b.length then b.channelData ch i else 0) }

/-- `WAAudioEditor.trim`: keep only the range. -/
def trim (start stop : ℚ) (st : EditorState) : EditorState :=
  if start ≥ stop ∨ start < 0 ∨ stop > duration st.buffer then st
  else
    let st1 := saveState st
    let b := st.buffer
    let startSample := toSampleIndex start b.sampleRate
    let endSample := toSampleIndex stop b.sampleRate
    { st1 with
      buffer := mkBuffer b.numberOfChannels (endSample - startSample) b.sampleRate
        (fun ch i => b.channelData ch (startSample + i)) }

/-- `WAAudioEditor.silence`: zero the range in place on every channel. -/
def silence (start stop : ℚ) (st : EditorState) : EditorState :=
  if start ≥ stop ∨ start < 0 ∨ stop > duration st.buffer then st
  else
    let st1 := saveState st
    let b := st.buffer
    let startSample := toSampleIndex start b.sampleRate
    let endSample := toSampleIndex stop b.sampleRate
    let newData : ℕ → ℕ → ℚ := fun ch i =>
      if ch < b.numberOfChannels ∧ startSample ≤ i ∧ i < endSample then 0
      else b.channelData ch i
    { st1 with buffer := { b with channelData := newData } }

/-- `WAAudioEditor.reverse`: reverse the samples in the range, in place,
per channel. -/
def reverse (start stop : ℚ) (st : EditorState) : EditorState :=
  if start ≥ stop ∨ start < 0 ∨ stop > duration st.buffer then st
  else
    let st1 := saveState st
    let b := st.buffer
    let startSample := toSampleIndex start b.sampleRate
    let endSample := toSampleIndex stop b.sampleRate
    let newData : ℕ → ℕ → ℚ := fun ch i =>
      if ch < b.numberOfChannels ∧ startSample ≤ i ∧ i < endSample then
        b.channelData ch (startSample + endSample - 1 - i)
      else b.channelData ch i
    { st1 with buffer := { b with channelData := newData } }

/-- Fade curve tag (`FadeParams['curve']`). -/
inductive Curve
  | linear
  | exponential
  | sigmoid
deriving DecidableEq

/-- `WAAudioEditor._applyCurve`; `mexp` embeds the host `Math.exp`. -/
def applyCurve (mexp : ℚ → ℚ) (t : ℚ) (curve : Curve) (isFadeIn : Bool) : ℚ :=
  let x := if isFadeIn then t else 1 - t
  match curve with
  | Curve.exponential => x * x
  | Curve.sigmoid => 1 / (1 + mexp (-(10 * (x - 1 / 2))))
  | Curve.linear => x

/-- `WAAudioEditor._fade`: multiply each sample of the range by the curve
value at its fractional position `t = i / (endSample - startSample)`. -/
def fade (mexp : ℚ → ℚ) (start fdur : ℚ) (curve : Curve) (isFadeIn : Bool)
    (st : EditorState) : EditorState :=
  if fdur ≤ 0 ∨ start < 0 ∨ start + fdur > duration st.buffer then st
  else
    let st1 := saveState st
    let b := st.buffer
    let startSample := toSampleIndex start b.sampleRate
    let endSample := toSampleIndex (start + fdur) b.sampleRate
    let newData : ℕ → ℕ → ℚ := fun ch i =>
      if ch < b.numberOfChannels ∧ startSample ≤ i ∧ i < endSample then
        b.channelData ch i *
          applyCurve mexp (((i - startSample : ℕ) : ℚ) / ((endSample - startSample : ℕ) : ℚ))
            curve isFadeIn
      else b.channelData ch i
    { st1 with buffer := { b with channelData := newData } }

/-- `WAAudioEditor.fadeIn`. -/
def fadeIn (mexp : ℚ → ℚ) (start fdur : ℚ) (curve : Curve) (st : EditorState) : EditorState :=
  fade mexp start fdur curve true st

/-- `WAAudioEditor.fadeOut`. -/
def fadeOut (mexp : ℚ → ℚ) (start fdur : ℚ) (curve : Curve) (st : EditorState) : EditorState :=
  fade mexp start fdur curve false st

/-- `WAAudioEditor._applyGain` on the buffer: multiply the samples of
`[toSampleIndex start, toSampleIndex stop)` by `g` on every channel. -/
def applyGain (start stop g : ℚ) (b : AudioBuffer) : AudioBuffer :=
  let startSample := toSampleIndex start b.sampleRate
  let endSample := toSampleIndex stop b.sampleRate
  let newData : ℕ → ℕ → ℚ := fun ch i =>
    if ch < b.numberOfChannels ∧ startSample ≤ i ∧ i < endSample then
      b.channelData ch i * g
    else b.channelData ch i
  { b with channelData := newData }

/-- Host `Math.abs`. -/
def mabs (x : ℚ) : ℚ := if x < 0 then -x else x

/-- `WAAudioEditor._getPeak`: running maximum of the absolute sample
values, over channels then sample indices, starting from 0. -/
def getPeak (b : AudioBuffer) : ℚ :=
  (List.range b.numberOfChannels).foldl
    (fun acc ch =>
      (List.range b.length).foldl
        (fun acc2 i => if mabs (b.channelData ch i) > acc2 then mabs (b.channelData ch i) else acc2)
        acc)
    0

/-- The list of absolute sample values visited by `_getPeak`, in visit
order: channels outermost, sample indices innermost. -/
def absSamples (b : AudioBuffer) : List ℚ :=
  ((List.range b.numberOfChannels).map
    (fun ch => (List.range b.length).map (fun i => mabs (b.channelData ch i)))).flatten

/-- `WAAudioEditor.normalize`; `mpow10` embeds the host `x ↦ Math.pow(10, x)`. -/
def normalize (mpow10 : ℚ → ℚ) (targetDb : ℚ) (st : EditorState) : ℚ × EditorState :=
  let peak := getPeak st.buffer
  if peak = 0 then (0, st)
  else
    let targetLinear := mpow10 (targetDb / 20)
    let g := targetLinear / peak
    let st1 := saveState st
    (g, { st1 with buffer := applyGain 0 (duration st.buffer) g st.buffer })

/-- `WAAudioEditor.gain`. -/
def gain (mpow10 : ℚ → ℚ) (gainDb : ℚ) (st : EditorState) : EditorState :=
  let linearGain := mpow10 (gainDb / 20)
  let st1 := saveState st
  { st1 with buffer := applyGain 0 (duration st.buffer) linearGain st.buffer }

/-- One mutating operation in the save-then-mutate discipline every mutating
editor method follows when its guard passes: `_saveState()` first, then the
buffer is replaced by a function of the pre-operation buffer. -/
def applyEdit (f : AudioBuffer → AudioBuffer) (st : EditorState) : EditorState :=
  let st1 := saveState st
  { st1 with buffer := f st.buffer }

/-- A sequence of mutating operations applied in order. -/
def applyEdits (ops : List (AudioBuffer → AudioBuffer)) (st : EditorState) : EditorState :=
  ops.foldl (fun s f => applyEdit f s) st

/-- The buffer after running all operations. -/
def runOps (ops : List (AudioBuffer → AudioBuffer)) (b : AudioBuffer) : AudioBuffer :=
  ops.foldl (fun x f => f x) b

/-- The forward sequence of buffer states: the initial buffer followed by the
state after each successive operation (`ops.length + 1` entries). -/
def editStates : List (AudioBuffer → AudioBuffer) → AudioBuffer → List AudioBuffer
  | [], b => [b]
  | f :: ops, b => b :: editStates ops (f b)

/-- The editor state sitting at position `k` of a linear history timeline
`sts`: current buffer `sts[k]`, undo stack holding the states before `k`
(most-recent-first), redo stack holding the states after `k`. -/
def histState (sts : List AudioBuffer) (dflt : AudioBuffer) (k : ℕ) : EditorState :=
  ⟨sts.getD k dflt, (sts.take k).reverse, sts.drop (k + 1)⟩

/-- `undo()` applied `k` times (results discarded). -/
def undoIter : ℕ → EditorState → EditorState
  | 0, st => st
  | k + 1, st => undoIter k (undo st).2

/-- `redo()` applied `k` times (results discarded). -/
def redoIter : ℕ → EditorState → EditorState
  | 0, st => st
  | k + 1, st => redoIter k (redo st).2

/-- All of the next `k` calls to `undo()` return `true`. -/
def undoAllTrue : ℕ → EditorState → Prop
  | 0, _ => True
  | k + 1, st => (undo st).1 = true ∧ undoAllTrue k (undo st).2

/-- All of the next `k` calls to `redo()` return `true`. -/
def redoAllTrue : ℕ → EditorState → Prop
  | 0, _ => True
  | k + 1, st => (redo st).1 = true ∧ redoAllTrue k (redo st).2

/-- Concrete mono buffer `[1, 2, 3, 4]` at sample rate 1. -/
def exBuf : AudioBuffer :=
  ⟨1, 4, 1, fun _ i => if i = 0 then 1 else if i = 1 then 2 else if i = 2 then 3 else 4⟩

/-- Concrete all-zero (silent) mono buffer. -/
def zeroBuf : AudioBuffer := ⟨1, 2, 1, fun _ _ => 0⟩

/-- Concrete constant mono buffer of value 1. -/
def oneBuf : AudioBuffer := ⟨1, 2, 1, fun _ _ => 1⟩

/-- Concrete stereo buffer, 4 frames of value 5 at sample rate 1. -/
def dstBuf : AudioBuffer := ⟨2, 4, 1, fun _ _ => 5⟩

/-- Concrete mono buffer, 2 frames of value 9 at sample rate 1. -/
def monoBuf : AudioBuffer := ⟨1, 2, 1, fun _ _ => 9⟩

/-- Concrete 4-channel buffer, 1 second at 44.1 kHz, all samples 1. -/
def bigBuf : AudioBuffer := ⟨4, 44100, 44100, fun _ _ => 1⟩

/-- Claim C8: every range-based operation called with an invalid range —
`start ≥ end`, negative `start`, or `end` beyond the duration (for the fades
in start/duration form: the corresponding conditions on `start + duration`) —
is a silent no-op: the current buffer, the undo stack and the redo stack are
all unchanged, and no exception is raised (every operation is total). -/
theorem invalid_range_noop (start stop fdur : ℚ) (curve : Curve) (mexp : ℚ → ℚ)
    (st : EditorState)
    (hinv : start ≥ stop ∨ start < 0 ∨ stop > duration st.buffer)
    (hfinv : start ≥ start + fdur ∨ start < 0 ∨ start + fdur > duration st.buffer) :
    cut start stop st = (none, st) ∧ copy start stop st = none ∧
    delete start stop st = st ∧ trim start stop st = st ∧
    silence start stop st = st ∧ reverse start stop st = st ∧
    fadeIn mexp start fdur curve st = st ∧ fadeOut mexp start fdur curve st = st := by
  have hf : fdur ≤ 0 ∨ start < 0 ∨ start + fdur > duration st.buffer := by
    rcases hfinv with h | h | h
    · exact Or.inl (by linarith)
    · exact Or.inr (Or.inl h)
    · exact Or.inr (Or.inr h)
  refine ⟨?_, ?_, ?_, ?_, ?_, ?_, ?_, ?_⟩
  · unfold cut; rw [if_pos hinv]
  · unfold copy; rw [if_pos hinv]
  · unfold delete; rw [if_pos hinv]
  · unfold trim; rw [if_pos hinv]
  · unfold silence; rw [if_pos hinv]
  · unfold reverse; rw [if_pos hinv]
  · unfold fadeIn fade; rw [if_pos hf]
  · unfold fadeOut fade; rw [if_pos hf]

/-- Witness for `invalid_range_noop` at `start = 2 > stop = 1`, `fdur = -1`. -/
theorem invalid_range_noop_witness :
    ((2 : ℚ) ≥ 1 ∨ (2 : ℚ) < 0 ∨ (1 : ℚ) > duration exBuf) ∧
    cut 2 1 ⟨exBuf, [], []⟩ = (none, ⟨exBuf, [], []⟩) ∧
    silence 2 1 ⟨exBuf, [], []⟩ = ⟨exBuf, [], []⟩ ∧
    fadeIn id 2 (-1) Curve.linear ⟨exBuf, [], []⟩ = ⟨exBuf, [], []⟩ := by
  have h1 : (2 : ℚ) ≥ 1 ∨ (2 : ℚ) < 0 ∨ (1 : ℚ) > duration exBuf := Or.inl (by norm_num)
  have h2 : (2 : ℚ) ≥ 2 + (-1) ∨ (2 : ℚ) < 0 ∨ (2 : ℚ) + (-1) > duration exBuf :=
    Or.inl (by norm_num)
  have h := invalid_range_noop 2 1 (-1) Curve.linear id ⟨exBuf, [], []⟩ h1 h2
  exact ⟨h1, h.1, h.2.2.2.2.1, h.2.2.2.2.2.2.1⟩

/-- Claim C9: on a 4-channel, 44100-sample buffer at sample rate 44100,
`silence(0.25, 0.5)` sets samples 11025..22049 inclusive to exactly 0 on
every channel, leaves every sample outside that index range unchanged, and
leaves the buffer length unchanged. -/
theorem silence_quarter_half (b : AudioBuffer) (u r : List AudioBuffer)
    (hn : b.numberOfChannels = 4) (hl : b.length = 44100) (hsr : b.sampleRate = 44100) :
    (silence (1/4) (1/2) ⟨b, u, r⟩).buffer.length = 44100 ∧
    ∀ ch < 4, ∀ i < 44100,
      (silence (1/4) (1/2) ⟨b, u, r⟩).buffer.channelData ch i =
        if 11025 ≤ i ∧ i ≤ 22049 then 0 else b.channelData ch i := by
  have hdur : duration b = 1 := by rw [duration, hl, hsr]; norm_num
  have hguard : ¬((1/4 : ℚ) ≥ 1/2 ∨ (1/4 : ℚ) < 0 ∨ (1/2 : ℚ) > duration b) := by
    rw [hdur]; push_neg; norm_num
  have h1 : toSampleIndex (1/4) b.sampleRate = 11025 := by
    rw [hsr]; unfold toSampleIndex; norm_num; rfl
  have h2 : toSampleIndex (1/2) b.sampleRate = 22050 := by
    rw [hsr]; unfold toSampleIndex; norm_num; rfl
  simp only [silence]
  rw [if_neg hguard]
  refine ⟨hl, ?_⟩
  intro ch hch i hi
  simp only [h1, h2, hn]
  split_ifs with ha hb hb
  · rfl
  · exact absurd ⟨ha.2.1, by omega⟩ hb
  · exact absurd ⟨by omega, hb.1, by omega⟩ ha
  · rfl

/-- Witness for `silence_quarter_half` on the concrete buffer `bigBuf`. -/
theorem silence_quarter_half_witness :
    bigBuf.numberOfChannels = 4 ∧ bigBuf.length = 44100 ∧ bigBuf.sampleRate = 44100 ∧
    ((silence (1/4) (1/2) ⟨bigBuf, [], []⟩).buffer.length = 44100 ∧
      ∀ ch < 4, ∀ i < 44100,
        (silence (1/4) (1/2) ⟨bigBuf, [], []⟩).buffer.channelData ch i =
          if 11025 ≤ i ∧ i ≤ 22049 then 0 else bigBuf.channelData ch i) :=
  ⟨rfl, rfl, rfl, silence_quarter_half bigBuf [] [] rfl rfl rfl⟩

/-- Claim C10: `normalize` on an all-zero buffer (peak 0) leaves the undo and
redo stacks (and the buffer) untouched — no snapshot is pushed and the redo
history is not cleared — whereas on a buffer with nonzero peak it pushes the
pre-operation snapshot and clears the redo stack. -/
theorem normalize_silent_no_history (mpow10 : ℚ → ℚ) (targetDb : ℚ) (st : EditorState) :
    (getPeak st.buffer = 0 → normalize mpow10 targetDb st = (0, st)) ∧
    (getPeak st.buffer ≠ 0 →
      (normalize mpow10 targetDb st).2.undoStack = pushBounded st.buffer st.undoStack ∧
      (normalize mpow10 targetDb st).2.redoStack = []) := by
  constructor
  · intro h; unfold normalize; rw [if_pos h]
  · intro h; unfold normalize; rw [if_neg h]; exact ⟨rfl, rfl⟩

/-- Witness for `normalize_silent_no_history`: a silent buffer (with a pending
redo entry, which is kept) and a non-silent buffer (whose redo is cleared). -/
theorem normalize_silent_no_history_witness :
    (getPeak zeroBuf = 0 ∧
      normalize (fun x => x) (-1) ⟨zeroBuf, [], [oneBuf]⟩ = (0, ⟨zeroBuf, [], [oneBuf]⟩)) ∧
    (getPeak oneBuf ≠ 0 ∧
      (normalize (fun x => x) (-1) ⟨oneBuf, [], [zeroBuf]⟩).2.undoStack =
        pushBounded oneBuf [] ∧
      (normalize (fun x => x) (-1) ⟨oneBuf, [], [zeroBuf]⟩).2.redoStack = []) := by
  have hz : getPeak zeroBuf = 0 := by decide
  have ho : getPeak oneBuf ≠ 0 := by decide
  exact ⟨⟨hz, (normalize_silent_no_history (fun x => x) (-1) ⟨zeroBuf, [], [oneBuf]⟩).1 hz⟩,
    ⟨ho, (normalize_silent_no_history (fun x => x) (-1) ⟨oneBuf, [], [zeroBuf]⟩).2 ho⟩⟩

/-- Claim C3: every mutating operation (all except `copy`) that actually
applies — its own guard passes — pushes the pre-operation buffer onto the
undo stack (with bounded eviction) and empties the redo stack; the pushed
snapshot is the buffer from before the mutation. Each operation's conclusion
is conditioned only on that operation's applicability: the range operations
on their own valid range, `paste` on a valid position, the fades on a valid
fade window, `normalize` on a nonzero peak, and `gain` unconditionally. -/
theorem saveState_discipline (start stop position fdur targetDb gainDb : ℚ)
    (curve : Curve) (mexp mpow10 : ℚ → ℚ) (pb : AudioBuffer) (st : EditorState) :
    (start < stop ∧ 0 ≤ start ∧ stop ≤ duration st.buffer →
      (cut start stop st).2.undoStack = pushBounded st.buffer st.undoStack ∧
      (cut start stop st).2.redoStack = []) ∧
    (start < stop ∧ 0 ≤ start ∧ stop ≤ duration st.buffer →
      (delete start stop st).undoStack = pushBounded st.buffer st.undoStack ∧
      (delete start stop st).redoStack = []) ∧
    (0 ≤ position ∧ position ≤ duration st.buffer →
      (paste position pb st).undoStack = pushBounded st.buffer st.undoStack ∧
      (paste position pb st).redoStack = []) ∧
    (start < stop ∧ 0 ≤ start ∧ stop ≤ duration st.buffer →
      (trim start stop st).undoStack = pushBounded st.buffer st.undoStack ∧
      (trim start stop st).redoStack = []) ∧
    (start < stop ∧ 0 ≤ start ∧ stop ≤ duration st.buffer →
      (silence start stop st).undoStack = pushBounded st.buffer st.undoStack ∧
      (silence start stop st).redoStack = []) ∧
    (start < stop ∧ 0 ≤ start ∧ stop ≤ duration st.buffer →
      (reverse start stop st).undoStack = pushBounded st.buffer st.undoStack ∧
      (reverse start stop st).redoStack = []) ∧
    (0 < fdur ∧ 0 ≤ start ∧ start + fdur ≤ duration st.buffer →
      (fadeIn mexp start fdur curve st).undoStack = pushBounded st.buffer st.undoStack ∧
      (fadeIn mexp start fdur curve st).redoStack = []) ∧
    (0 < fdur ∧ 0 ≤ start ∧ start + fdur ≤ duration st.buffer →
      (fadeOut mexp start fdur curve st).undoStack = pushBounded st.buffer st.undoStack ∧
      (fadeOut mexp start fdur curve st).redoStack = []) ∧
    (getPeak st.buffer ≠ 0 →
      (normalize mpow10 targetDb st).2.undoStack = pushBounded st.buffer st.undoStack ∧
      (normalize mpow10 targetDb st).2.redoStack = []) ∧
    ((gain mpow10 gainDb st).undoStack = pushBounded st.buffer st.undoStack ∧
      (gain mpow10 gainDb st).redoStack = []) := by
  refine ⟨?_, ?_, ?_, ?_, ?_, ?_, ?_, ?_, ?_, ?_⟩
  · rintro ⟨h1, h2, h3⟩
    have hg : ¬(start ≥ stop ∨ start < 0 ∨ stop > duration st.buffer) := by
      push_neg; exact ⟨h1, h2, h3⟩
    unfold cut; rw [if_neg hg]; exact ⟨rfl, rfl⟩
  · rintro ⟨h1, h2, h3⟩
    have hg : ¬(start ≥ stop ∨ start < 0 ∨ stop > duration st.buffer) := by
      push_neg; exact ⟨h1, h2, h3⟩
    unfold delete; rw [if_neg hg]; exact ⟨rfl, rfl⟩
  · rintro ⟨hp1, hp2⟩
    have hgp : ¬(position < 0 ∨ position > duration st.buffer) := by
      push_neg; exact ⟨hp1, hp2⟩
    unfold paste; rw [if_neg hgp]; exact ⟨rfl, rfl⟩
  · rintro ⟨h1, h2, h3⟩
    have hg : ¬(start ≥ stop ∨ start < 0 ∨ stop > duration st.buffer) := by
      push_neg; exact ⟨h1, h2, h3⟩
    unfold trim; rw [if_neg hg]; exact ⟨rfl, rfl⟩
  · rintro ⟨h1, h2, h3⟩
    have hg : ¬(start ≥ stop ∨ start < 0 ∨ stop > duration st.buffer) := by
      push_neg; exact ⟨h1, h2, h3⟩
    unfold silence; rw [if_neg hg]; exact ⟨rfl, rfl⟩
  · rintro ⟨h1, h2, h3⟩
    have hg : ¬(start ≥ stop ∨ start < 0 ∨ stop > duration st.buffer) := by
      push_neg; exact ⟨h1, h2, h3⟩
    unfold reverse; rw [if_neg hg]; exact ⟨rfl, rfl⟩
  · rintro ⟨hf1, hf2, hf3⟩
    have hgf : ¬(fdur ≤ 0 ∨ start < 0 ∨ start + fdur > duration st.buffer) := by
      push_neg; exact ⟨hf1, hf2, hf3⟩
    unfold fadeIn fade; rw [if_neg hgf]; exact ⟨rfl, rfl⟩
  · rintro ⟨hf1, hf2, hf3⟩
    have hgf : ¬(fdur ≤ 0 ∨ start < 0 ∨ start + fdur > duration st.buffer) := by
      push_neg; exact ⟨hf1, hf2, hf3⟩
    unfold fadeOut fade; rw [if_neg hgf]; exact ⟨rfl, rfl⟩
  · intro hpk
    unfold normalize; rw [if_neg hpk]; exact ⟨rfl, rfl⟩
  · exact ⟨rfl, rfl⟩

/-- Witness for `saveState_discipline`: the range operations and `gain` push
a snapshot even on an all-zero buffer (where `normalize` would bail out), and
`cut` and `normalize` push on a non-silent buffer. -/
theorem saveState_discipline_witness :
    getPeak zeroBuf = 0 ∧
    (silence 0 1 ⟨zeroBuf, [], []⟩).undoStack = pushBounded zeroBuf [] ∧
    (gain id 3 ⟨zeroBuf, [], []⟩).undoStack = pushBounded zeroBuf [] ∧
    getPeak exBuf ≠ 0 ∧
    (cut 1 2 ⟨exBuf, [], []⟩).2.undoStack = pushBounded exBuf [] ∧
    (normalize id (-1) ⟨exBuf, [], []⟩).2.redoStack = [] := by
  have hz := saveState_discipline 0 1 0 1 (-1) 3 Curve.linear id id monoBuf ⟨zeroBuf, [], []⟩
  have hx := saveState_discipline 1 2 0 1 (-1) 3 Curve.linear id id monoBuf ⟨exBuf, [], []⟩
  refine ⟨by decide, ?_, ?_, by decide, ?_, ?_⟩
  · exact (hz.2.2.2.2.1 ⟨by norm_num, by norm_num, by norm_num [duration, zeroBuf]⟩).1
  · exact hz.2.2.2.2.2.2.2.2.2.1
  · exact (hx.1 ⟨by norm_num, by norm_num, by norm_num [duration, exBuf]⟩).1
  · exact (hx.2.2.2.2.2.2.2.2.1 (by decide)).2

/-- Running `max` bound: the seed is below the fold. -/
theorem le_foldl_max (l : List ℚ) (a : ℚ) : a ≤ l.foldl max a := by
  induction l generalizing a with
  | nil => exact le_refl a
  | cons x l ih => exact le_trans (le_max_left a x) (ih (max a x))

/-- Running `max` bound: every member is below the fold. -/
theorem mem_le_foldl_max (l : List ℚ) (a x : ℚ) (hx : x ∈ l) : x ≤ l.foldl max a := by
  induction l generalizing a with
  | nil => cases hx
  | cons y l ih =>
    rcases List.mem_cons.1 hx with h | h
    · subst h; exact le_trans (le_max_right a x) (le_foldl_max l (max a x))
    · exact ih (max a y) h

/-- A `max` fold is the seed or a member of the list. -/
theorem foldl_max_eq_or_mem (l : List ℚ) (a : ℚ) : l.foldl max a = a ∨ l.foldl max a ∈ l := by
  induction l generalizing a with
  | nil => exact Or.inl rfl
  | cons x l ih =>
    rcases ih (max a x) with h | h
    · rcases max_choice a x with hm | hm
      · exact Or.inl (by rw [List.foldl_cons, h, hm])
      · exact Or.inr (by rw [List.foldl_cons, h, hm]; exact List.mem_cons_self x l)
    · exact Or.inr (List.mem_cons_of_mem x h)

/-- The running-comparison update of `_getPeak` is a `max`. -/
theorem peak_step_eq_max (a x : ℚ) : (if x > a then x else a) = max a x := by
  rcases le_or_lt x a with h | h
  · rw [if_neg (not_lt.2 h), max_eq_left h]
  · rw [if_pos h, max_eq_right h.le]

/-- The embedded `Math.abs` agrees with the absolute value. -/
theorem mabs_eq_abs (x : ℚ) : mabs x = |x| := by
  unfold mabs
  rcases lt_or_le x 0 with h | h
  · rw [if_pos h, abs_of_neg h]
  · rw [if_neg (not_lt.2 h), abs_of_nonneg h]

/-- `_getPeak` is the `max` fold of the absolute sample values it visits. -/
theorem getPeak_eq_foldl (b : AudioBuffer) : getPeak b = (absSamples b).foldl max 0 := by
  unfold getPeak absSamples
  rw [List.foldl_flatten, List.foldl_map]
  apply List.foldl_ext
  intro acc ch _
  rw [List.foldl_map]
  apply List.foldl_ext
  intro acc2 i _
  exact peak_step_eq_max acc2 (mabs (b.channelData ch i))

/-- Membership in `absSamples`. -/
theorem mem_absSamples (b : AudioBuffer) (x : ℚ) :
    x ∈ absSamples b ↔
      ∃ ch < b.numberOfChannels, ∃ i < b.length, x = mabs (b.channelData ch i) := by
  unfold absSamples
  rw [List.mem_flatten]
  constructor
  · rintro ⟨l, hl, hx⟩
    rcases List.mem_map.1 hl with ⟨ch, hch, rfl⟩
    rcases List.mem_map.1 hx with ⟨i, hi, rfl⟩
    exact ⟨ch, List.mem_range.1 hch, i, List.mem_range.1 hi, rfl⟩
  · rintro ⟨ch, hch, i, hi, rfl⟩
    refine ⟨(List.range b.length).map (fun i => mabs (b.channelData ch i)),
      List.mem_map.2 ⟨ch, List.mem_range.2 hch, rfl⟩,
      List.mem_map.2 ⟨i, List.mem_range.2 hi, rfl⟩⟩

/-- Claim C5: `normalize(targetDb)` computes `gain = pow10(targetDb/20) / peak`
where the peak is the maximum absolute sample over all channels (an upper
bound that is attained unless zero), multiplies every sample of every channel
of the whole buffer by that gain and returns it; on a zero peak it returns 0
and leaves the state unchanged. -/
theorem normalize_spec (mpow10 : ℚ → ℚ) (targetDb : ℚ) (st : EditorState)
    (hsr : 0 < st.buffer.sampleRate) :
    (∀ ch < st.buffer.numberOfChannels, ∀ i < st.buffer.length,
      |st.buffer.channelData ch i| ≤ getPeak st.buffer) ∧
    (getPeak st.buffer = 0 ∨
      ∃ ch < st.buffer.numberOfChannels, ∃ i < st.buffer.length,
        |st.buffer.channelData ch i| = getPeak st.buffer) ∧
    (getPeak st.buffer ≠ 0 →
      (normalize mpow10 targetDb st).1 = mpow10 (targetDb / 20) / getPeak st.buffer ∧
      (normalize mpow10 targetDb st).2.buffer.numberOfChannels =
        st.buffer.numberOfChannels ∧
      (normalize mpow10 targetDb st).2.buffer.length = st.buffer.length ∧
      ∀ ch < st.buffer.numberOfChannels, ∀ i < st.buffer.length,
        (normalize mpow10 targetDb st).2.buffer.channelData ch i =
          st.buffer.channelData ch i * (mpow10 (targetDb / 20) / getPeak st.buffer)) ∧
    (getPeak st.buffer = 0 → normalize mpow10 targetDb st = (0, st)) := by
  refine ⟨?_, ?_, ?_, ?_⟩
  · intro ch hch i hi
    rw [getPeak_eq_foldl, ← mabs_eq_abs]
    exact mem_le_foldl_max _ 0 _ ((mem_absSamples st.buffer _).2 ⟨ch, hch, i, hi, rfl⟩)
  · rw [getPeak_eq_foldl]
    rcases foldl_max_eq_or_mem (absSamples st.buffer) 0 with h | h
    · exact Or.inl h
    · rcases (mem_absSamples st.buffer _).1 h with ⟨ch, hch, i, hi, he⟩
      exact Or.inr ⟨ch, hch, i, hi, by rw [← mabs_eq_abs, ← he]⟩
  · intro hne
    unfold normalize
    rw [if_neg hne]
    refine ⟨rfl, rfl, rfl, ?_⟩
    intro ch hch i hi
    have hz : toSampleIndex 0 st.buffer.sampleRate = 0 := by
      unfold toSampleIndex; norm_num
    have hlen : toSampleIndex (duration st.buffer) st.buffer.sampleRate = st.buffer.length := by
      unfold toSampleIndex duration
      rw [div_mul_cancel₀ _ (ne_of_gt hsr), Int.floor_natCast]
      exact Int.toNat_natCast st.buffer.length
    simp only [applyGain, hz, hlen]
    rw [if_pos ⟨hch, Nat.zero_le i, hi⟩]
  · intro h; unfold normalize; rw [if_pos h]

/-- Witness for `normalize_spec`: a constant-1 buffer (nonzero peak) and an
all-zero buffer (zero peak). -/
theorem normalize_spec_witness :
    (0 : ℚ) < oneBuf.sampleRate ∧ getPeak oneBuf ≠ 0 ∧
    (normalize (fun x => x) (-1) ⟨oneBuf, [], []⟩).1 = ((-1 : ℚ) / 20) / getPeak oneBuf ∧
    getPeak zeroBuf = 0 ∧
    normalize (fun x => x) (-1) ⟨zeroBuf, [], []⟩ = (0, ⟨zeroBuf, [], []⟩) := by
  have h1 := normalize_spec (fun x => x) (-1) ⟨oneBuf, [], []⟩ (by decide)
  have h2 := normalize_spec (fun x => x) (-1) ⟨zeroBuf, [], []⟩ (by decide)
  have ho : getPeak oneBuf ≠ 0 := by decide
  have hz : getPeak zeroBuf = 0 := by decide
  exact ⟨by decide, ho, (h1.2.2.1 ho).1, hz, h2.2.2.2 hz⟩

/-- Evaluation of `toSampleIndex` when the product is a whole number. -/
theorem toSampleIndex_eval (t sr : ℚ) (n : ℕ) (h : t * sr = (n : ℚ)) :
    toSampleIndex t sr = n := by
  unfold toSampleIndex
  rw [h, Int.floor_natCast]
  exact Int.toNat_natCast n

/-- `cut` on a valid range, in closed form. -/
theorem cut_eq (start stop : ℚ) (st : EditorState)
    (h : ¬(start ≥ stop ∨ start < 0 ∨ stop > duration st.buffer)) :
    cut start stop st =
      (some (mkBuffer st.buffer.numberOfChannels
          (toSampleIndex stop st.buffer.sampleRate - toSampleIndex start st.buffer.sampleRate)
          st.buffer.sampleRate
          (fun ch i => st.buffer.channelData ch (toSampleIndex start st.buffer.sampleRate + i))),
        ⟨gapBuffer st.buffer (toSampleIndex start st.buffer.sampleRate)
            (toSampleIndex stop st.buffer.sampleRate),
          pushBounded st.buffer st.undoStack, []⟩) := by
  unfold cut
  rw [if_neg h]
  rfl

/-- `paste` on a valid position, in closed form. -/
theorem paste_eq (position : ℚ) (pb : AudioBuffer) (st : EditorState)
    (h : ¬(position < 0 ∨ position > duration st.buffer)) :
    paste position pb st =
      ⟨mkBuffer st.buffer.numberOfChannels
          (max st.buffer.length (toSampleIndex position st.buffer.sampleRate + pb.length))
          st.buffer.sampleRate
          (fun ch i =>
            if ch < pb.numberOfChannels ∧ toSampleIndex position st.buffer.sampleRate ≤ i ∧
                i < toSampleIndex position st.buffer.sampleRate + pb.length then
              pb.channelData (min ch (st.buffer.numberOfChannels - 1))
                (i - toSampleIndex position st.buffer.sampleRate)
            else if i < st.buffer.length then st.buffer.channelData ch i else 0),
        pushBounded st.buffer st.undoStack, []⟩ := by
  unfold paste
  rw [if_neg h]
  rfl

/-- `_fade` on a valid range, in closed form. -/
theorem fade_eq (mexp : ℚ → ℚ) (start fdur : ℚ) (curve : Curve) (isFadeIn : Bool)
    (st : EditorState)
    (h : ¬(fdur ≤ 0 ∨ start < 0 ∨ start + fdur > duration st.buffer)) :
    fade mexp start fdur curve isFadeIn st =
      ⟨AudioBuffer.mk st.buffer.numberOfChannels st.buffer.length st.buffer.sampleRate
          (fun ch i =>
            if ch < st.buffer.numberOfChannels ∧ toSampleIndex start st.buffer.sampleRate ≤ i ∧
                i < toSampleIndex (start + fdur) st.buffer.sampleRate then
              st.buffer.channelData ch i * applyCurve mexp
                (((i - toSampleIndex start st.buffer.sampleRate : ℕ) : ℚ) /
                  ((toSampleIndex (start + fdur) st.buffer.sampleRate -
                    toSampleIndex start st.buffer.sampleRate : ℕ) : ℚ)) curve isFadeIn
            else st.buffer.channelData ch i),
        pushBounded st.buffer st.undoStack, []⟩ := by
  unfold fade
  rw [if_neg h]
  rfl

/-- Claim C1 counterexample: on the mono buffer `[1, 2, 3, 4]` (sample rate 1),
`cut(1, 2)` followed by `paste(1, cutSegment)` does not restore the pre-cut
buffer — the result has 3 samples instead of 4, because `paste` overwrites the
samples after the position instead of inserting and shifting the suffix. -/
theorem cut_paste_not_roundtrip :
    exBuf.length = 4 ∧
    (paste 1 (((cut 1 2 ⟨exBuf, [], []⟩).1).getD exBuf)
      (cut 1 2 ⟨exBuf, [], []⟩).2).buffer.length = 3 ∧
    ¬ buffersEqual
      (paste 1 (((cut 1 2 ⟨exBuf, [], []⟩).1).getD exBuf)
        (cut 1 2 ⟨exBuf, [], []⟩).2).buffer exBuf := by
  have hg : ¬((1 : ℚ) ≥ 2 ∨ (1 : ℚ) < 0 ∨ (2 : ℚ) > duration exBuf) := by
    push_neg
    norm_num [duration, exBuf]
  have hsr : exBuf.sampleRate = 1 := rfl
  have ht1 : toSampleIndex 1 (1 : ℚ) = 1 := toSampleIndex_eval 1 1 1 (by norm_num)
  have ht2 : toSampleIndex 2 (1 : ℚ) = 2 := toSampleIndex_eval 2 1 2 (by norm_num)
  rw [cut_eq 1 2 ⟨exBuf, [], []⟩ hg]
  simp only [hsr, ht1, ht2]
  have hg2 : ¬((1 : ℚ) < 0 ∨ (1 : ℚ) >
      duration (⟨gapBuffer exBuf 1 2, pushBounded exBuf [], []⟩ : EditorState).buffer) := by
    push_neg
    norm_num [duration, gapBuffer, mkBuffer, exBuf]
  have hsr2 : (gapBuffer exBuf 1 2).sampleRate = 1 := rfl
  have hln2 : (gapBuffer exBuf 1 2).length = 3 := rfl
  have hch2 : (gapBuffer exBuf 1 2).numberOfChannels = 1 := rfl
  have hchE : exBuf.numberOfChannels = 1 := rfl
  rw [paste_eq 1 _ _ hg2]
  simp only [Option.getD_some, hsr2, hln2, hch2, hchE, ht1]
  refine ⟨rfl, ?_, ?_⟩
  · norm_num [mkBuffer]
  · intro hEq
    have hlen := hEq.2.1
    norm_num [mkBuffer, exBuf] at hlen

/-- Claim C1 (amended): the cut/paste round trip does restore the buffer,
sample for sample, when the cut extends to the end of the buffer
(`e = duration`) and the cut point is sample-aligned (`s · sampleRate` is a
whole number); the overwriting `paste` then rewrites exactly the removed
suffix. -/
theorem cut_paste_suffix_roundtrip (b : AudioBuffer) (u r : List AudioBuffer) (s : ℚ)
    (hsr : 0 < b.sampleRate) (hs0 : 0 ≤ s) (hsd : s < duration b)
    (halign : ((⌊s * b.sampleRate⌋ : ℤ) : ℚ) = s * b.sampleRate) :
    ∃ seg : AudioBuffer,
      (cut s (duration b) ⟨b, u, r⟩).1 = some seg ∧
      buffersEqual (paste s seg (cut s (duration b) ⟨b, u, r⟩).2).buffer b := by
  set a := toSampleIndex s b.sampleRate with ha_def
  have h0 : (0 : ℤ) ≤ ⌊s * b.sampleRate⌋ := Int.floor_nonneg.2 (mul_nonneg hs0 hsr.le)
  have h1 : ((⌊s * b.sampleRate⌋.toNat : ℕ) : ℤ) = ⌊s * b.sampleRate⌋ := Int.toNat_of_nonneg h0
  have hcast : (a : ℚ) = s * b.sampleRate := by
    rw [ha_def]
    unfold toSampleIndex
    rw [← halign]
    exact_mod_cast h1
  have ha_lt : a < b.length := by
    have hq1 : s * b.sampleRate < (b.length : ℚ) := by
      rw [duration] at hsd
      exact (lt_div_iff₀ hsr).1 hsd
    have hq2 : (a : ℚ) < (b.length : ℚ) := by rw [hcast]; exact hq1
    exact_mod_cast hq2
  have hend : toSampleIndex (duration b) b.sampleRate = b.length := by
    unfold toSampleIndex duration
    rw [div_mul_cancel₀ _ (ne_of_gt hsr), Int.floor_natCast]
    exact Int.toNat_natCast b.length
  have hg1 : ¬(s ≥ duration b ∨ s < 0 ∨ duration b > duration b) := by
    push_neg
    exact ⟨hsd, hs0, le_refl _⟩
  rw [cut_eq s (duration b) ⟨b, u, r⟩ hg1]
  simp only [hend, ← ha_def]
  refine ⟨_, rfl, ?_⟩
  have hgl : (gapBuffer b a b.length).length = a := by
    simp only [gapBuffer, mkBuffer]
    omega
  have hgsr : (gapBuffer b a b.length).sampleRate = b.sampleRate := rfl
  have hgch : (gapBuffer b a b.length).numberOfChannels = b.numberOfChannels := rfl
  have hs_eq : s = (a : ℚ) / b.sampleRate := by
    rw [eq_div_iff (ne_of_gt hsr), ← hcast]
  have hg2 : ¬(s < 0 ∨ s >
      duration (⟨gapBuffer b a b.length, pushBounded b u, []⟩ : EditorState).buffer) := by
    push_neg
    constructor
    · exact hs0
    · show s ≤ duration (gapBuffer b a b.length)
      rw [duration, hgl, hgsr, ← hs_eq]
  rw [paste_eq s _ _ hg2]
  have hpos : toSampleIndex s (gapBuffer b a b.length).sampleRate = a := by
    rw [hgsr, ← ha_def]
  simp only [hpos, hgl, hgch, hgsr]
  have hseg_len : (mkBuffer b.numberOfChannels (b.length - a) b.sampleRate
      (fun ch i => b.channelData ch (a + i))).length = b.length - a := rfl
  have hseg_ch : (mkBuffer b.numberOfChannels (b.length - a) b.sampleRate
      (fun ch i => b.channelData ch (a + i))).numberOfChannels = b.numberOfChannels := rfl
  simp only [hseg_len, hseg_ch]
  have hmax : max a (a + (b.length - a)) = b.length := by omega
  rw [hmax]
  refine ⟨rfl, rfl, ?_⟩
  intro ch hch i hi
  simp only [mkBuffer] at hch hi ⊢
  rw [if_pos ⟨hch, hi⟩]
  by_cases hia : a ≤ i
  · rw [if_pos ⟨hch, hia, by omega⟩]
    have hmin : min ch (b.numberOfChannels - 1) = ch := by omega
    rw [hmin]
    rw [if_pos ⟨hch, by omega⟩]
    congr 1
    omega
  · rw [if_neg (by tauto)]
    rw [if_pos (show i < a by omega)]
    simp only [gapBuffer, mkBuffer]
    rw [if_pos ⟨hch, by omega⟩, if_pos (show i < a by omega)]

/-- Witness for `cut_paste_suffix_roundtrip` at `s = 1` on `exBuf`. -/
theorem cut_paste_suffix_roundtrip_witness :
    (0 : ℚ) < exBuf.sampleRate ∧ (1 : ℚ) < duration exBuf ∧
    (∃ seg : AudioBuffer,
      (cut 1 (duration exBuf) ⟨exBuf, [], []⟩).1 = some seg ∧
      buffersEqual (paste 1 seg (cut 1 (duration exBuf) ⟨exBuf, [], []⟩).2).buffer exBuf) := by
  refine ⟨by norm_num [exBuf], by norm_num [duration, exBuf], ?_⟩
  exact cut_paste_suffix_roundtrip exBuf [] [] 1 (by norm_num [exBuf]) (by norm_num)
    (by norm_num [duration, exBuf]) (by norm_num [exBuf])

/-- Claim C6 is contradicted by the code: pasting a mono buffer (all samples 9)
at position 0 into a 2-channel editor (all samples 5) leaves destination
channel 1 unchanged inside the pasted range instead of giving it the source's
last channel. The paste loop iterates over the source's channels and clamps
the source index with the destination channel count, so excess destination
channels are never written. -/
theorem paste_channel_mismatch :
    (paste 0 monoBuf ⟨dstBuf, [], []⟩).buffer.channelData 0 0 = 9 ∧
    (paste 0 monoBuf ⟨dstBuf, [], []⟩).buffer.channelData 1 0 = 5 ∧
    (paste 0 monoBuf ⟨dstBuf, [], []⟩).buffer.channelData 1 0 ≠ 9 := by
  have hg : ¬((0 : ℚ) < 0 ∨ (0 : ℚ) > duration (⟨dstBuf, [], []⟩ : EditorState).buffer) := by
    push_neg
    norm_num [duration, dstBuf]
  rw [paste_eq 0 monoBuf _ hg]
  have hts : toSampleIndex 0 dstBuf.sampleRate = 0 :=
    toSampleIndex_eval 0 _ 0 (by norm_num [dstBuf])
  simp only [hts]
  norm_num [mkBuffer, dstBuf, monoBuf]

/-- Claim C7 counterexample: on the constant-1 mono buffer of 2 samples,
`fadeIn(0, 2, 'linear')` followed by `fadeOut(0, 2, 'linear')` leaves sample 1
at 1/4, not at its original value 1 (the two gain ramps multiply, they do
not cancel). -/
theorem fadeIn_fadeOut_not_inverse :
    oneBuf.channelData 0 1 = 1 ∧
    (fadeOut id 0 2 Curve.linear
      (fadeIn id 0 2 Curve.linear ⟨oneBuf, [], []⟩)).buffer.channelData 0 1 = 1/4 := by
  have hgf : ¬((2 : ℚ) ≤ 0 ∨ (0 : ℚ) < 0 ∨
      (0 : ℚ) + 2 > duration (⟨oneBuf, [], []⟩ : EditorState).buffer) := by
    push_neg
    norm_num [duration, oneBuf]
  rw [fadeIn, fade_eq id 0 2 Curve.linear true _ hgf]
  rw [fadeOut,
    fade_eq id 0 2 Curve.linear false _ (by push_neg; norm_num [duration, oneBuf])]
  have ts0 : toSampleIndex 0 oneBuf.sampleRate = 0 :=
    toSampleIndex_eval 0 _ 0 (by norm_num [oneBuf])
  have ts2 : toSampleIndex (0 + 2) oneBuf.sampleRate = 2 :=
    toSampleIndex_eval (0 + 2) _ 2 (by norm_num [oneBuf])
  refine ⟨rfl, ?_⟩
  simp only [ts0, ts2]
  norm_num [applyCurve, oneBuf]

/-- Claim C7 (amended): `fadeIn(0, d, 'linear')` immediately followed by
`fadeOut(0, d, 'linear')` over the identical range multiplies each in-range
sample by `t · (1 - t)` with `t = i / N` (`N` the fade's sample count) — the
two linear ramps compose multiplicatively, so the original values are not
restored (sample 0 stays 0); samples outside the range are unchanged. -/
theorem fadeIn_fadeOut_linear_scales (mexp : ℚ → ℚ) (b : AudioBuffer)
    (u r : List AudioBuffer) (d : ℚ) (hd : 0 < d) (hdd : d ≤ duration b) :
    (fadeOut mexp 0 d Curve.linear
      (fadeIn mexp 0 d Curve.linear ⟨b, u, r⟩)).buffer.numberOfChannels =
        b.numberOfChannels ∧
    (fadeOut mexp 0 d Curve.linear
      (fadeIn mexp 0 d Curve.linear ⟨b, u, r⟩)).buffer.length = b.length ∧
    (∀ ch < b.numberOfChannels, ∀ i < toSampleIndex d b.sampleRate,
      (fadeOut mexp 0 d Curve.linear
        (fadeIn mexp 0 d Curve.linear ⟨b, u, r⟩)).buffer.channelData ch i =
        b.channelData ch i * ((i : ℚ) / ((toSampleIndex d b.sampleRate : ℕ) : ℚ)) *
          (1 - (i : ℚ) / ((toSampleIndex d b.sampleRate : ℕ) : ℚ))) ∧
    (∀ ch, ∀ i, toSampleIndex d b.sampleRate ≤ i →
      (fadeOut mexp 0 d Curve.linear
        (fadeIn mexp 0 d Curve.linear ⟨b, u, r⟩)).buffer.channelData ch i =
        b.channelData ch i) := by
  have hgf : ¬(d ≤ 0 ∨ (0 : ℚ) < 0 ∨
      (0 : ℚ) + d > duration (⟨b, u, r⟩ : EditorState).buffer) := by
    push_neg
    refine ⟨hd, le_refl 0, ?_⟩
    rw [zero_add]
    exact hdd
  have ts0 : toSampleIndex 0 b.sampleRate = 0 := by
    unfold toSampleIndex
    norm_num
  rw [fadeIn, fade_eq mexp 0 d Curve.linear true _ hgf]
  have hgf2 : ¬(d ≤ 0 ∨ (0 : ℚ) < 0 ∨ (0 : ℚ) + d > duration
      (⟨AudioBuffer.mk b.numberOfChannels b.length b.sampleRate
          (fun ch i =>
            if ch < b.numberOfChannels ∧ toSampleIndex 0 b.sampleRate ≤ i ∧
                i < toSampleIndex (0 + d) b.sampleRate then
              b.channelData ch i * applyCurve mexp
                (((i - toSampleIndex 0 b.sampleRate : ℕ) : ℚ) /
                  ((toSampleIndex (0 + d) b.sampleRate -
                    toSampleIndex 0 b.sampleRate : ℕ) : ℚ)) Curve.linear true
            else b.channelData ch i),
        pushBounded b u, []⟩ : EditorState).buffer) := hgf
  rw [fadeOut, fade_eq mexp 0 d Curve.linear false _ hgf2]
  simp only [ts0, zero_add, Nat.sub_zero]
  refine ⟨trivial, trivial, ?_, ?_⟩
  · intro ch hch i hi
    rw [if_pos ⟨hch, Nat.zero_le i, hi⟩, if_pos ⟨hch, Nat.zero_le i, hi⟩]
    simp [applyCurve]
  · intro ch i hN
    rw [if_neg (fun hcon => by omega), if_neg (fun hcon => by omega)]

/-- Witness for `fadeIn_fadeOut_linear_scales` with `d = 2` on `oneBuf`. -/
theorem fadeIn_fadeOut_linear_scales_witness :
    (0 : ℚ) < 2 ∧ (2 : ℚ) ≤ duration oneBuf ∧
    ∀ ch < oneBuf.numberOfChannels, ∀ i < toSampleIndex 2 oneBuf.sampleRate,
      (fadeOut id 0 2 Curve.linear
        (fadeIn id 0 2 Curve.linear ⟨oneBuf, [], []⟩)).buffer.channelData ch i =
        oneBuf.channelData ch i *
          ((i : ℚ) / ((toSampleIndex 2 oneBuf.sampleRate : ℕ) : ℚ)) *
          (1 - (i : ℚ) / ((toSampleIndex 2 oneBuf.sampleRate : ℕ) : ℚ)) := by
  refine ⟨by norm_num, by norm_num [duration, oneBuf], ?_⟩
  exact (fadeIn_fadeOut_linear_scales id oneBuf [] [] 2 (by norm_num)
    (by norm_num [duration, oneBuf])).2.2.1

/-- With at most `maxUndoSteps` entries present, the bounded push keeps the
`maxUndoSteps` most recent snapshots. -/
theorem pushBounded_take (b : AudioBuffer) (u : List AudioBuffer)
    (hu : u.length ≤ maxUndoSteps) :
    pushBounded b u = (b :: u).take maxUndoSteps := by
  simp only [pushBounded, cloneBuffer]
  by_cases h : (b :: u).length > maxUndoSteps
  · rw [if_pos h, List.dropLast_eq_take]
    congr 1
    simp only [List.length_cons] at h ⊢
    unfold maxUndoSteps at h hu ⊢
    omega
  · rw [if_neg h]
    symm
    apply List.take_of_length_le
    simp only [List.length_cons] at h ⊢
    omega

/-- `editStates` has one entry per operation plus the initial state. -/
theorem editStates_length (ops : List (AudioBuffer → AudioBuffer)) (b : AudioBuffer) :
    (editStates ops b).length = ops.length + 1 := by
  induction ops generalizing b with
  | nil => rfl
  | cons f ops ih => simp [editStates, ih (f b)]

/-- Unfolding the pre-states of a sequence headed by `f`. -/
theorem editStates_cons_dropLast (f : AudioBuffer → AudioBuffer)
    (ops : List (AudioBuffer → AudioBuffer)) (b : AudioBuffer) :
    (editStates (f :: ops) b).dropLast = b :: (editStates ops (f b)).dropLast := by
  cases ops with
  | nil => rfl
  | cons g rest => rfl

/-- The last forward state is the buffer after running all operations. -/
theorem editStates_getD_last (ops : List (AudioBuffer → AudioBuffer)) (b dflt : AudioBuffer) :
    (editStates ops b).getD ops.length dflt = runOps ops b := by
  induction ops generalizing b with
  | nil => rfl
  | cons f ops ih => exact ih (f b)

/-- Truncating the right operand of an append does not change a truncated
append. -/
theorem take_append_take {α : Type} (X l : List α) (n : ℕ) :
    (X ++ l.take n).take n = (X ++ l).take n := by
  rw [List.take_append_eq_append_take, List.take_append_eq_append_take, List.take_take,
    Nat.min_eq_left (Nat.sub_le n X.length)]

/-- Running a sequence of mutating operations from an empty redo stack: the
buffer is the final state, the undo stack keeps the `maxUndoSteps` most
recent pre-states (most recent first), and the redo stack stays empty. -/
theorem applyEdits_fresh (ops : List (AudioBuffer → AudioBuffer)) (b : AudioBuffer)
    (u : List AudioBuffer) (hu : u.length ≤ maxUndoSteps) :
    applyEdits ops ⟨b, u, []⟩ =
      ⟨runOps ops b, ((editStates ops b).dropLast.reverse ++ u).take maxUndoSteps, []⟩ := by
  induction ops generalizing b u with
  | nil =>
    show EditorState.mk b u [] = _
    simp [editStates, runOps, applyEdits, List.take_of_length_le hu]
  | cons f ops ih =>
    have hstep : applyEdits (f :: ops) ⟨b, u, []⟩ =
        applyEdits ops ⟨f b, pushBounded b u, []⟩ := rfl
    rw [hstep, pushBounded_take b u hu,
      ih (f b) ((b :: u).take maxUndoSteps) (by simp)]
    rw [editStates_cons_dropLast, List.reverse_cons, List.append_assoc, List.singleton_append,
      take_append_take]
    rfl

/-- At most `maxUndoSteps` operations from a fresh editor land exactly at the
top of a linear history timeline. -/
theorem applyEdits_eq_histState (ops : List (AudioBuffer → AudioBuffer)) (b : AudioBuffer)
    (hN : ops.length ≤ maxUndoSteps) :
    applyEdits ops ⟨b, [], []⟩ = histState (editStates ops b) b ops.length := by
  rw [applyEdits_fresh ops b [] (by simp)]
  unfold histState
  have hlen := editStates_length ops b
  have h1 : (editStates ops b).getD ops.length b = runOps ops b :=
    editStates_getD_last ops b b
  have h2 : List.take maxUndoSteps ((editStates ops b).dropLast.reverse ++ []) =
      (List.take ops.length (editStates ops b)).reverse := by
    rw [List.append_nil, List.dropLast_eq_take, hlen, Nat.add_sub_cancel]
    apply List.take_of_length_le
    rw [List.length_reverse, List.length_take]
    omega
  have h3 : ([] : List AudioBuffer) = List.drop (ops.length + 1) (editStates ops b) :=
    (List.drop_eq_nil_of_le (by omega)).symm
  rw [h1, ← h3, h2]

/-- `undo` with a nonempty undo stack. -/
theorem undo_cons (bf : AudioBuffer) (x : AudioBuffer) (rest rd : List AudioBuffer) :
    undo ⟨bf, x :: rest, rd⟩ = (true, ⟨x, rest, bf :: rd⟩) := rfl

/-- `redo` with a nonempty redo stack. -/
theorem redo_cons (bf : AudioBuffer) (x : AudioBuffer) (ust rest : List AudioBuffer) :
    redo ⟨bf, ust, x :: rest⟩ = (true, ⟨x, bf :: ust, rest⟩) := rfl

/-- Reversed prefixes grow at the head. -/
theorem take_succ_reverse (sts : List AudioBuffer) (j : ℕ) (hj : j < sts.length) :
    (sts.take (j + 1)).reverse = sts[j] :: (sts.take j).reverse := by
  rw [List.take_succ, List.getElem?_eq_getElem hj]
  rw [Option.toList_some, List.reverse_concat]

/-- `undo` steps the history position down by one and returns `true`. -/
theorem undo_histState (sts : List AudioBuffer) (dflt : AudioBuffer) (j : ℕ)
    (hj : j + 1 < sts.length) :
    undo (histState sts dflt (j + 1)) = (true, histState sts dflt j) := by
  have hh : histState sts dflt (j + 1) =
      ⟨sts.getD (j + 1) dflt, sts[j] :: (sts.take j).reverse, sts.drop (j + 2)⟩ := by
    unfold histState
    rw [take_succ_reverse sts j (by omega)]
  rw [hh, undo_cons]
  unfold histState
  rw [List.getD_eq_getElem sts dflt hj, ← List.drop_eq_getElem_cons hj,
    List.getD_eq_getElem sts dflt (by omega : j < sts.length)]

/-- `redo` steps the history position up by one and returns `true`. -/
theorem redo_histState (sts : List AudioBuffer) (dflt : AudioBuffer) (k : ℕ)
    (hk : k + 1 < sts.length) :
    redo (histState sts dflt k) = (true, histState sts dflt (k + 1)) := by
  have hh : histState sts dflt k =
      ⟨sts.getD k dflt, (sts.take k).reverse, sts[k + 1] :: sts.drop (k + 2)⟩ := by
    unfold histState
    rw [← List.drop_eq_getElem_cons hk]
  rw [hh, redo_cons]
  unfold histState
  rw [take_succ_reverse sts k (by omega),
    List.getD_eq_getElem sts dflt (by omega : k < sts.length),
    List.getD_eq_getElem sts dflt hk]

/-- Iterated `undo` walks the history position down. -/
theorem undoIter_histState (sts : List AudioBuffer) (dflt : AudioBuffer) :
    ∀ j k, j ≤ k → k < sts.length →
      undoIter j (histState sts dflt k) = histState sts dflt (k - j) := by
  intro j
  induction j with
  | zero => intro k _ _; rfl
  | succ j ih =>
    intro k hjk hk
    cases k with
    | zero => omega
    | succ m =>
      show undoIter j (undo (histState sts dflt (m + 1))).2 = _
      rw [undo_histState sts dflt m hk]
      rw [ih m (by omega) (by omega)]
      rw [Nat.succ_sub_succ]

/-- Every `undo` along the walk down returns `true`. -/
theorem undoAllTrue_histState (sts : List AudioBuffer) (dflt : AudioBuffer) :
    ∀ j k, j ≤ k → k < sts.length → undoAllTrue j (histState sts dflt k) := by
  intro j
  induction j with
  | zero => intro k _ _; trivial
  | succ j ih =>
    intro k hjk hk
    cases k with
    | zero => omega
    | succ m =>
      refine ⟨?_, ?_⟩
      · rw [undo_histState sts dflt m hk]
      · show undoAllTrue j (undo (histState sts dflt (m + 1))).2
        rw [undo_histState sts dflt m hk]
        exact ih m (by omega) (by omega)

/-- Iterated `redo` walks the history position up. -/
theorem redoIter_histState (sts : List AudioBuffer) (dflt : AudioBuffer) :
    ∀ j k, k + j < sts.length →
      redoIter j (histState sts dflt k) = histState sts dflt (k + j) := by
  intro j
  induction j with
  | zero => intro k _; rfl
  | succ j ih =>
    intro k hk
    show redoIter j (redo (histState sts dflt k)).2 = _
    rw [redo_histState sts dflt k (by omega)]
    rw [ih (k + 1) (by omega)]
    congr 1
    omega

/-- Every `redo` along the walk up returns `true`. -/
theorem redoAllTrue_histState (sts : List AudioBuffer) (dflt : AudioBuffer) :
    ∀ j k, k + j < sts.length → redoAllTrue j (histState sts dflt k) := by
  intro j
  induction j with
  | zero => intro k _; trivial
  | succ j ih =>
    intro k hk
    refine ⟨?_, ?_⟩
    · rw [redo_histState sts dflt k (by omega)]
    · show redoAllTrue j (redo (histState sts dflt k)).2
      rw [redo_histState sts dflt k (by omega)]
      exact ih (k + 1) (by omega)

/-- A mutating operation that applies is an `applyEdit`: `delete` on a valid
range is save-state followed by a buffer replacement computed from the
pre-operation buffer, and likewise for `trim`, `silence`, `reverse` and
`gain` — so sequences of such operations are exactly the sequences
`undo_redo_symmetry` and `history_bound` quantify over. -/
theorem ops_are_applyEdit (start stop gainDb : ℚ) (mpow10 : ℚ → ℚ) (st : EditorState)
    (h : ¬(start ≥ stop ∨ start < 0 ∨ stop > duration st.buffer)) :
    delete start stop st =
      applyEdit (fun b => gapBuffer b (toSampleIndex start b.sampleRate)
        (toSampleIndex stop b.sampleRate)) st ∧
    trim start stop st =
      applyEdit (fun b => mkBuffer b.numberOfChannels
        (toSampleIndex stop b.sampleRate - toSampleIndex start b.sampleRate) b.sampleRate
        (fun ch i => b.channelData ch (toSampleIndex start b.sampleRate + i))) st ∧
    gain mpow10 gainDb st =
      applyEdit (fun b => applyGain 0 ((b.length : ℚ) / b.sampleRate)
        (mpow10 (gainDb / 20)) b) st := by
  refine ⟨?_, ?_, ?_⟩
  · unfold delete
    rw [if_neg h]
    rfl
  · unfold trim
    rw [if_neg h]
    rfl
  · rfl

/-- Claim C2: for any sequence of `N ≤ maxDepth` mutating operations applied
from a fresh editor, `undo()` called `N` times and then `redo()` called `N`
times return `true` on every call; after the `j`-th undo the current buffer
is forward state `N - j`, after the `k`-th redo it is forward state `k`, and
the sequence ends in the state after the `N`-th operation. -/
theorem undo_redo_symmetry (ops : List (AudioBuffer → AudioBuffer)) (b : AudioBuffer)
    (hN : ops.length ≤ maxUndoSteps) :
    undoAllTrue ops.length (applyEdits ops ⟨b, [], []⟩) ∧
    (∀ j ≤ ops.length, (undoIter j (applyEdits ops ⟨b, [], []⟩)).buffer =
      (editStates ops b).getD (ops.length - j) b) ∧
    redoAllTrue ops.length (undoIter ops.length (applyEdits ops ⟨b, [], []⟩)) ∧
    (∀ k ≤ ops.length, (redoIter k (undoIter ops.length (applyEdits ops ⟨b, [], []⟩))).buffer =
      (editStates ops b).getD k b) ∧
    (redoIter ops.length (undoIter ops.length (applyEdits ops ⟨b, [], []⟩))).buffer =
      runOps ops b := by
  have hlen := editStates_length ops b
  rw [applyEdits_eq_histState ops b hN]
  have hbot : undoIter ops.length (histState (editStates ops b) b ops.length) =
      histState (editStates ops b) b 0 := by
    rw [undoIter_histState (editStates ops b) b ops.length ops.length (le_refl _) (by omega),
      Nat.sub_self]
  refine ⟨?_, ?_, ?_, ?_, ?_⟩
  · exact undoAllTrue_histState (editStates ops b) b ops.length ops.length (le_refl _) (by omega)
  · intro j hj
    rw [undoIter_histState (editStates ops b) b j ops.length hj (by omega)]
    rfl
  · rw [hbot]
    exact redoAllTrue_histState (editStates ops b) b ops.length 0 (by omega)
  · intro k hk
    rw [hbot, redoIter_histState (editStates ops b) b k 0 (by omega), Nat.zero_add]
    rfl
  · rw [hbot, redoIter_histState (editStates ops b) b ops.length 0 (by omega)]
    show (editStates ops b).getD (0 + ops.length) b = runOps ops b
    rw [Nat.zero_add]
    exact editStates_getD_last ops b b

/-- Witness for `undo_redo_symmetry` with a single operation. -/
theorem undo_redo_symmetry_witness :
    ([fun _ => zeroBuf] : List (AudioBuffer → AudioBuffer)).length ≤ maxUndoSteps ∧
    undoAllTrue 1 (applyEdits [fun _ => zeroBuf] ⟨oneBuf, [], []⟩) ∧
    (redoIter 1 (undoIter 1 (applyEdits [fun _ => zeroBuf] ⟨oneBuf, [], []⟩))).buffer =
      runOps [fun _ => zeroBuf] oneBuf := by
  have hN : ([fun _ => zeroBuf] : List (AudioBuffer → AudioBuffer)).length ≤ maxUndoSteps := by
    norm_num [maxUndoSteps]
  have h := undo_redo_symmetry [fun _ => zeroBuf] oneBuf hN
  exact ⟨hN, h.1, h.2.2.2.2⟩

/-- Claim C4: `maxDepth + 5 = 25` mutating operations from a fresh editor
leave the undo stack with exactly `maxDepth = 20` entries — the pre-operation
snapshots of the 20 most recent operations (most recent first), the 5 oldest
having been evicted from the bottom. -/
theorem history_bound (ops : List (AudioBuffer → AudioBuffer)) (b : AudioBuffer)
    (h25 : ops.length = 25) :
    (applyEdits ops ⟨b, [], []⟩).undoStack.length = maxUndoSteps ∧
    (applyEdits ops ⟨b, [], []⟩).undoStack =
      ((editStates ops b).dropLast.drop 5).reverse := by
  rw [applyEdits_fresh ops b [] (by simp)]
  have hXlen : (editStates ops b).dropLast.length = 25 := by
    rw [List.length_dropLast, editStates_length, h25]
  constructor
  · show (List.take maxUndoSteps ((editStates ops b).dropLast.reverse ++ [])).length = _
    rw [List.append_nil, List.length_take, List.length_reverse, hXlen]
    rfl
  · show List.take maxUndoSteps ((editStates ops b).dropLast.reverse ++ []) = _
    rw [List.append_nil, List.take_reverse, hXlen]
    norm_num [maxUndoSteps]

/-- Witness for `history_bound` with 25 identity operations. -/
theorem history_bound_witness :
    (List.replicate 25 (fun x => x) : List (AudioBuffer → AudioBuffer)).length = 25 ∧
    (applyEdits (List.replicate 25 (fun x => x)) ⟨oneBuf, [], []⟩).undoStack.length =
      maxUndoSteps := by
  have h25 : (List.replicate 25 (fun x => x) : List (AudioBuffer → AudioBuffer)).length = 25 := by
    simp
  exact ⟨h25, (history_bound (List.replicate 25 (fun x => x)) oneBuf h25).1⟩
end WAAudio
